import Mathlib

/-!
# Verification of the `ht` session encoders

Shallow embedding of the `ht` repository's wire encoders and recorders:

* `src/streaming/alis.rs` — the ALiS v1 binary encoder (LEB128, strings,
  colors, themes, event frames);
* `src/recording/asciicast_v3.rs` — the asciicast v3 file recorder;
* `src/streaming/asciinema_server.rs` — the remote streamer (ALiS and
  asciicast-v3 subprotocols, install-id resolution);
* `src/streaming/alis_local.rs` — the stateful local ALiS encoder;
* the theme construction of `run_stream_mode` in `src/main.rs`.

Rust machine integers are modelled as `Nat`/`Int` with explicit reductions
modulo `2^w` where a cast can wrap; fallible Rust functions returning
`Result` are modelled with `Option`; wall-clock instants are passed in
explicitly as rationals (seconds).  Strings fed to the byte-level ALiS
encoder are modelled as their UTF-8 byte lists (`List Nat`).
-/

namespace Ht

/-! ## ALiS v1 binary encoder (`src/streaming/alis.rs`) -/

/-- LEB128 encoding of an unsigned integer, from `encode_leb128`:
emit 7 data bits per byte, least-significant group first, setting the
continuation bit `0x80` whenever more bytes follow.  The source operates
on `u64`; for values below `2^64` the arithmetic agrees with `Nat`. -/
def encodeLeb128 (n : Nat) : List Nat :=
  if n / 128 = 0 then [n % 128] else (n % 128 + 128) :: encodeLeb128 (n / 128)
decreasing_by omega

/-- String (byte-sequence) encoding from `encode_string`:
length as LEB128, then the raw bytes. -/
def encodeString (s : List Nat) : List Nat :=
  encodeLeb128 s.length ++ s

/-- Modelled from the spec: the repository has no LEB128 decoder under
`src/` (§4.4 defines the format: "7 data bits per byte, continuation bit
0x80 when more bytes follow, least-significant group first").  Decodes a
LEB128 prefix, returning the value and the remaining bytes. -/
def decodeLeb128 : List Nat → Option (Nat × List Nat)
  | [] => none
  | b :: rest =>
    if b < 128 then some (b, rest)
    else
      match decodeLeb128 rest with
      | some (v, r) => some (b - 128 + 128 * v, r)
      | none => none

/-- Modelled from the spec: full-input LEB128 decode — the whole byte list
must be consumed. -/
def decodeLeb128Full (bs : List Nat) : Option Nat :=
  match decodeLeb128 bs with
  | some (v, []) => some v
  | _ => none

/-- Modelled from the spec: string decoding (§4.4, "Strings are
`LEB128(length) || bytes`") — decode the length, then take that many
bytes, returning the string and the remaining input. -/
def decodeString (bs : List Nat) : Option (List Nat × List Nat) :=
  match decodeLeb128 bs with
  | some (len, rest) =>
    if len ≤ rest.length then some (rest.take len, rest.drop len) else none
  | none => none

/-- Value of a single hexadecimal digit, as accepted by Rust's
`char::to_digit(16)`. -/
def hexVal (c : Char) : Option Nat :=
  if '0' ≤ c ∧ c ≤ '9' then some (c.toNat - 48)
  else if 'a' ≤ c ∧ c ≤ 'f' then some (c.toNat - 87)
  else if 'A' ≤ c ∧ c ≤ 'F' then some (c.toNat - 55)
  else none

/-- Value of a non-empty all-hex digit string (no sign). -/
def hexDigitsVal (cs : List Char) : Option Nat :=
  match cs with
  | [] => none
  | _ =>
    cs.foldl (fun acc c => acc.bind fun a => (hexVal c).map fun d => 16 * a + d)
      (some 0)

/-- Model of Rust's `u8::from_str_radix(s, 16)`: an optional single sign,
then at least one hex digit; values above `255` overflow, and a `-` sign
overflows unless the value is zero. -/
def fromStrRadix16U8 (cs : List Char) : Option Nat :=
  match cs with
  | '+' :: rest => (hexDigitsVal rest).bind fun v => if v ≤ 255 then some v else none
  | '-' :: rest => (hexDigitsVal rest).bind fun v => if v = 0 then some 0 else none
  | _ => (hexDigitsVal cs).bind fun v => if v ≤ 255 then some v else none

/-- `parse_color`: strip every leading `#`, require exactly six characters,
then parse the three two-digit hex components.  The source slices the
`str` by bytes; this model works on characters, which coincides with the
source on ASCII input (any non-ASCII input either fails the length test
differently or panics in the source and is irrelevant to the claims). -/
def parseColor (s : List Char) : Option (List Nat) :=
  let t := s.dropWhile (fun c => c = '#')
  if t.length ≠ 6 then none
  else
    (fromStrRadix16U8 (t.take 2)).bind fun r =>
      (fromStrRadix16U8 ((t.drop 2).take 2)).bind fun g =>
        (fromStrRadix16U8 ((t.drop 4).take 2)).map fun b => [r, g, b]

/-- Theme configuration for the ALiS encoder (`alis::Theme`). -/
structure Theme where
  fg : List Char
  bg : List Char
  palette : List (List Char)
  deriving Repr, DecidableEq

/-- Combine a list of optional values, failing if any entry failed
(models the `?` propagation inside the palette loops of `encode_theme`). -/
def seqOptions : List (Option α) → Option (List α)
  | [] => some []
  | o :: os => o.bind fun a => (seqOptions os).map fun as => a :: as

/-- The palette loop of `encode_theme`: for `i in 0..count`, parse
`palette[i]` when `i < palette.len()`, otherwise pad with `[0,0,0]`. -/
def paletteEntries (palette : List (List Char)) (count : Nat) :
    List (Option (List Nat)) :=
  (List.range count).map fun i =>
    match palette[i]? with
    | some c => parseColor c
    | none => some [0, 0, 0]

/-- `encode_theme`: `0x00` for no theme or an empty palette; otherwise the
format byte (`0x08` for up to 8 palette entries, `0x10` beyond), the
parsed fg and bg colors, then the padded palette entries. -/
def encodeTheme (t? : Option Theme) : Option (List Nat) :=
  match t? with
  | none => some [0x00]
  | some t =>
    if t.palette.length = 0 then some [0x00]
    else if t.palette.length ≤ 8 then
      (parseColor t.fg).bind fun fg =>
        (parseColor t.bg).bind fun bg =>
          (seqOptions (paletteEntries t.palette 8)).map fun ps =>
            0x08 :: (fg ++ bg ++ ps.flatten)
    else
      (parseColor t.fg).bind fun fg =>
        (parseColor t.bg).bind fun bg =>
          (seqOptions (paletteEntries t.palette 16)).map fun ps =>
            0x10 :: (fg ++ bg ++ ps.flatten)

/-- `encode_init`: type byte `0x01`, then `LEB128(last_id)`,
`LEB128(rel_time)`, `LEB128(cols)`, `LEB128(rows)`, the encoded theme and
the length-prefixed init data. -/
def encodeInit (lastId relTime cols rows : Nat) (theme : Option Theme)
    (initData : List Nat) : Option (List Nat) :=
  (encodeTheme theme).map fun tb =>
    0x01 :: (encodeLeb128 lastId ++ encodeLeb128 relTime ++ encodeLeb128 cols ++
      encodeLeb128 rows ++ tb ++ encodeString initData)

/-- `encode_output`: `0x6F`, `LEB128(id)`, `LEB128(rel_time)`, string. -/
def encodeOutput (id relTime : Nat) (data : List Nat) : List Nat :=
  0x6F :: (encodeLeb128 id ++ encodeLeb128 relTime ++ encodeString data)

/-- `encode_input`: `0x69`, `LEB128(id)`, `LEB128(rel_time)`, string. -/
def encodeInput (id relTime : Nat) (data : List Nat) : List Nat :=
  0x69 :: (encodeLeb128 id ++ encodeLeb128 relTime ++ encodeString data)

/-- `encode_resize`: `0x72`, `LEB128(id)`, `LEB128(rel_time)`,
`LEB128(cols)`, `LEB128(rows)`. -/
def encodeResize (id relTime cols rows : Nat) : List Nat :=
  0x72 :: (encodeLeb128 id ++ encodeLeb128 relTime ++ encodeLeb128 cols ++
    encodeLeb128 rows)

/-- `encode_marker`: `0x6D`, `LEB128(id)`, `LEB128(rel_time)`, string. -/
def encodeMarker (id relTime : Nat) (label : List Nat) : List Nat :=
  0x6D :: (encodeLeb128 id ++ encodeLeb128 relTime ++ encodeString label)

/-- Rust's `i32 as u64` cast: sign-extend and reinterpret, i.e. reduce
modulo `2^64`. -/
def intToU64 (s : Int) : Nat := (s % (2 ^ 64 : Int)).toNat

/-- `encode_exit`: `0x78`, `LEB128(id)`, `LEB128(rel_time)`,
`LEB128(status as u64)`. -/
def encodeExit (id relTime : Nat) (status : Int) : List Nat :=
  0x78 :: (encodeLeb128 id ++ encodeLeb128 relTime ++
    encodeLeb128 (intToU64 status))

/-- `encode_eot`: `0x04`, `LEB128(id)`, `LEB128(rel_time)` and no payload. -/
def encodeEot (id relTime : Nat) : List Nat :=
  0x04 :: (encodeLeb128 id ++ encodeLeb128 relTime)

/-! ## Session events

`crate::session` is not under `src/`, so the event type is modelled from
the spec. -/

/-- Modelled from the spec: the `Event` enum of `crate::session`
(`session.rs` is not in `src/`); variants and field shapes per spec §3,
matching their uses in the in-tree encoders.  Times are seconds as
rationals (the source uses `f64`). -/
inductive Event where
  | init (time : ℚ) (cols rows : Nat) (pid : Int) (initSeq : String)
      (textView : String)
  | output (time : ℚ) (data : String)
  | input (time : ℚ) (data : String)
  | resize (time : ℚ) (cols rows : Nat)
  | marker (time : ℚ) (label : String)
  | snapshot (time : ℚ) (cols rows : Nat) (text : String)
  | exit (time : ℚ) (status : Int)
  deriving Repr, DecidableEq

/-- Whether an event is an `Init`. -/
def Event.isInit : Event → Bool
  | .init _ _ _ _ _ _ => true
  | _ => false

/-- UTF-8 bytes of a string, as Rust's `str::as_bytes` yields them. -/
def strBytes (s : String) : List Nat :=
  s.toUTF8.toList.map (fun b => b.toNat)

/-! ## Asciicast v3 file recorder (`src/recording/asciicast_v3.rs`)

A written line is either the JSON header object or the serialization of
`json!([interval, code, data])` — a 3-element JSON array whose third
element is a JSON string (for `&str` data) or a JSON number (for `i32`
data).  `CastLine` models exactly that shape. -/

/-- The third element of an event line: a JSON string or a JSON number. -/
inductive JsonDatum where
  | str (s : String)
  | num (n : Int)
  deriving Repr, DecidableEq

/-- `recording::asciicast_v3::ThemeConfig`. -/
structure ThemeConfig where
  fg : String
  bg : String
  palette : Option String
  deriving Repr, DecidableEq

/-- `RecorderConfig`; the idle time limit is rational (source: `f64`). -/
structure RecorderConfig where
  outputPath : String
  append : Bool
  idleTimeLimit : Option ℚ
  title : Option String
  command : Option String
  captureEnv : List String
  theme : Option ThemeConfig
  termType : Option String
  captureInput : Bool

/-- The fields `write_header` serializes into the header JSON object. -/
structure RecHeader where
  cols : Nat
  rows : Nat
  termType : Option String
  theme : Option ThemeConfig
  timestamp : Int
  idleTimeLimit : Option ℚ
  command : Option String
  title : Option String
  env : Option (List (String × String))
  deriving Repr, DecidableEq

/-- One line of the recorded file: header object or 3-element event array. -/
inductive CastLine where
  | header (h : RecHeader)
  | event (interval : ℚ) (code : String) (data : JsonDatum)
  deriving Repr, DecidableEq

/-- Whether a file line is the header object. -/
def CastLine.isHeader : CastLine → Bool
  | .header _ => true
  | _ => false

/-- Whether a file line is an event array. -/
def CastLine.isEvent : CastLine → Bool
  | .event _ _ _ => true
  | _ => false

/-- Mutable state of `AsciicastV3Recorder` (times are explicit instants). -/
structure RecState where
  headerWritten : Bool
  lastEventTime : Option ℚ
  startTime : ℚ
  deriving Repr, DecidableEq

/-- `AsciicastV3Recorder::new`: opens the file (append mode appends,
otherwise `File::create` truncates) and initializes the state;
`header_written` starts `false` whether or not the file already exists. -/
def recorderNew (now : ℚ) : RecState :=
  ⟨false, none, now⟩

/-- The header object built by `write_header`: version 3, terminal size,
optional type/theme/idle limit/command/title, wall-clock `timestamp`, and
the captured environment (present only when the capture list is
non-empty, silently dropping unset variables). -/
def mkRecHeader (cfg : RecorderConfig) (env : String → Option String)
    (wall : Int) (cols rows : Nat) : RecHeader :=
  { cols := cols
    rows := rows
    termType := cfg.termType
    theme := cfg.theme
    timestamp := wall
    idleTimeLimit := cfg.idleTimeLimit
    command := cfg.command
    title := cfg.title
    env :=
      if cfg.captureEnv.isEmpty then none
      else some (cfg.captureEnv.filterMap fun k => (env k).map fun v => (k, v)) }

/-- `calculate_interval`: seconds elapsed since the previous emitted event
(`Instant::duration_since` saturates at zero), or `0` when none was
recorded; clamped by `idle_time_limit` via `min` when configured.  `now`
is the `Instant::now()` taken during the call. -/
def calcInterval (cfg : RecorderConfig) (now : ℚ) (st : RecState) :
    ℚ × RecState :=
  let raw : ℚ :=
    match st.lastEventTime with
    | some l => if l ≤ now then now - l else 0
    | none => 0
  let st' := { st with lastEventTime := some now }
  match cfg.idleTimeLimit with
  | some limit => (min raw limit, st')
  | none => (raw, st')

/-- `handle_event`: returns the updated recorder state and the lines
written (and flushed) for this event.  `Init` anchors the time origin and
writes the header when `!header_written || !append`; `Input` is recorded
only under `capture_input`; `Snapshot` is ignored; `Exit` data is the
`i32` status serialized as a JSON number. -/
def handleEvent (cfg : RecorderConfig) (env : String → Option String)
    (wall : Int) (now : ℚ) (st : RecState) :
    Event → RecState × List CastLine
  | .init _time cols rows _pid _seq _text =>
    let st1 := { st with startTime := now, lastEventTime := some now }
    if !st1.headerWritten || !cfg.append then
      ({ st1 with headerWritten := true },
        [.header (mkRecHeader cfg env wall cols rows)])
    else
      (st1, [])
  | .output _ data =>
    let (i, st') := calcInterval cfg now st
    (st', [.event i "o" (.str data)])
  | .resize _ cols rows =>
    let (i, st') := calcInterval cfg now st
    (st', [.event i "r" (.str (toString cols ++ "x" ++ toString rows))])
  | .marker _ label =>
    let (i, st') := calcInterval cfg now st
    (st', [.event i "m" (.str label)])
  | .input _ data =>
    if cfg.captureInput then
      let (i, st') := calcInterval cfg now st
      (st', [.event i "i" (.str data)])
    else
      (st, [])
  | .exit _ status =>
    let (i, st') := calcInterval cfg now st
    (st', [.event i "x" (.num status)])
  | .snapshot _ _ _ _ => (st, [])

/-- Fold `handle_event` over a timed event list, collecting the written
lines (the recorder's read loop in `run`). -/
def recSteps (cfg : RecorderConfig) (env : String → Option String)
    (wall : Int) : RecState → List (ℚ × Event) → List CastLine
  | _, [] => []
  | st, (t, e) :: rest =>
    let p := handleEvent cfg env wall t st e
    p.2 ++ recSteps cfg env wall p.1 rest

/-- One run of the recorder process over prior file contents `existing`:
`new` truncates the file unless `append` is set, then the timed events
are handled in order and their lines written. -/
def recordRun (cfg : RecorderConfig) (env : String → Option String)
    (wall : Int) (t0 : ℚ) (tes : List (ℚ × Event))
    (existing : List CastLine) : List CastLine :=
  (if cfg.append then existing else []) ++
    recSteps cfg env wall (recorderNew t0) tes

/-! ## Remote streamer (`src/streaming/asciinema_server.rs`) -/

/-- `StreamProtocol`. -/
inductive StreamProtocol where
  | alis
  | asciicastV3
  deriving Repr, DecidableEq

/-- `StreamerConfig`; paths are modelled as strings. -/
structure StreamerConfig where
  serverUrl : String
  installId : Option String
  installIdPath : Option String
  title : Option String
  visibility : Option String
  protocol : StreamProtocol
  captureInput : Bool
  theme : Option Theme
  termType : Option String

/-- Whitespace per Rust's `char::is_whitespace` (Unicode `White_Space`). -/
def isRustWhitespace (c : Char) : Bool :=
  c.toNat ∈ [0x09, 0x0A, 0x0B, 0x0C, 0x0D, 0x20, 0x85, 0xA0, 0x1680,
    0x2000, 0x2001, 0x2002, 0x2003, 0x2004, 0x2005, 0x2006, 0x2007, 0x2008,
    0x2009, 0x200A, 0x2028, 0x2029, 0x202F, 0x205F, 0x3000]

/-- Model of Rust's `str::trim`: drop whitespace from both ends. -/
def rustTrim (s : String) : String :=
  ⟨((s.data.dropWhile isRustWhitespace).reverse.dropWhile
      isRustWhitespace).reverse⟩

/-- `get_install_id`: a configured install-id value is returned as-is
(without trimming); otherwise the configured path, or failing that
`$HOME/.config/asciinema/install-id`, is read and the contents trimmed.
The filesystem (`read_to_string`, `none` = I/O error) and the `HOME`
variable are passed in explicitly; `none` when reading fails or `HOME`
is needed but unset. -/
def getInstallId (cfg : StreamerConfig) (fs : String → Option String)
    (home : Option String) : Option String :=
  match cfg.installId with
  | some id => some id
  | none =>
    match cfg.installIdPath with
    | some p => (fs p).map rustTrim
    | none =>
      match home with
      | some h => (fs (h ++ "/.config/asciinema/install-id")).map rustTrim
      | none => none

/-- Mutable state of `AsciinemaServerStreamer` (also the `AlisState` of
`alis_local.rs`, which has the same three fields). -/
structure StreamerState where
  eventId : Nat
  lastEventTime : Option ℚ
  startTime : ℚ
  deriving Repr, DecidableEq

/-- `AsciinemaServerStreamer::new` / `AlisState::new`: id 0, no previous
event time. -/
def streamerNew (now : ℚ) : StreamerState :=
  ⟨0, none, now⟩

/-- `calculate_rel_time_micros`: whole microseconds elapsed since the
previous emitted event (saturating, truncated), or `0` when none. -/
def calcRelTimeMicros (now : ℚ) (st : StreamerState) :
    Nat × StreamerState :=
  let micros : Nat :=
    match st.lastEventTime with
    | some l => if l ≤ now then ((now - l) * 1000000).floor.toNat else 0
    | none => 0
  (micros, { st with lastEventTime := some now })

/-- `calculate_interval_secs`: seconds elapsed since the previous emitted
event (saturating), or `0` when none.  No idle clamp on this path. -/
def calcIntervalSecs (now : ℚ) (st : StreamerState) : ℚ × StreamerState :=
  let secs : ℚ :=
    match st.lastEventTime with
    | some l => if l ≤ now then now - l else 0
    | none => 0
  (secs, { st with lastEventTime := some now })

/-- `encode_alis_event`: stateful ALiS encoding of one session event into
binary frames.  Returns the updated state and `some frames` (zero or one
frames), or `none` when `encode_init` fails on a malformed theme (the `?`
propagation).  `Init` passes the current `event_id` as `last_id` and does
not increment it; every emitted non-Init frame first increments the id.
`usize → u16` casts reduce modulo `2^16`. -/
def encodeAlisEvent (cfg : StreamerConfig) (now : ℚ) (st : StreamerState) :
    Event → StreamerState × Option (List (List Nat))
  | .init _ cols rows _ seq _ =>
    let st1 := { st with startTime := now, lastEventTime := some now }
    (st1, (encodeInit st.eventId 0 (cols % 65536) (rows % 65536) cfg.theme
      (strBytes seq)).map fun f => [f])
  | .output _ data =>
    let st1 := { st with eventId := st.eventId + 1 }
    let p := calcRelTimeMicros now st1
    (p.2, some [encodeOutput st1.eventId p.1 (strBytes data)])
  | .resize _ cols rows =>
    let st1 := { st with eventId := st.eventId + 1 }
    let p := calcRelTimeMicros now st1
    (p.2, some [encodeResize st1.eventId p.1 (cols % 65536) (rows % 65536)])
  | .marker _ label =>
    let st1 := { st with eventId := st.eventId + 1 }
    let p := calcRelTimeMicros now st1
    (p.2, some [encodeMarker st1.eventId p.1 (strBytes label)])
  | .input _ data =>
    if cfg.captureInput then
      let st1 := { st with eventId := st.eventId + 1 }
      let p := calcRelTimeMicros now st1
      (p.2, some [encodeInput st1.eventId p.1 (strBytes data)])
    else
      (st, some [])
  | .exit _ status =>
    let st1 := { st with eventId := st.eventId + 1 }
    let p := calcRelTimeMicros now st1
    (p.2, some [encodeExit st1.eventId p.1 status])
  | .snapshot _ _ _ _ => (st, some [])

/-- The header object built by `encode_v3_event` on `Init`: version 3,
terminal size, `timestamp` = the event time cast `as i64` (truncation
toward zero), optional type, theme and title. -/
structure V3Header where
  cols : Nat
  rows : Nat
  timestamp : Int
  termType : Option String
  theme : Option Theme
  title : Option String
  deriving Repr, DecidableEq

/-- One text frame of the v3 subprotocol: the header object or a
3-element event array (same line format as the file). -/
inductive V3Line where
  | header (h : V3Header)
  | event (interval : ℚ) (code : String) (data : JsonDatum)
  deriving Repr, DecidableEq

/-- Whether a v3 subprotocol line is an event array. -/
def V3Line.isEvent : V3Line → Bool
  | .event _ _ _ => true
  | _ => false

/-- Rust's `f64 as i64` cast: truncation toward zero. -/
def ratAsI64 (q : ℚ) : Int :=
  if q < 0 then q.ceil else q.floor

/-- `encode_v3_event`: stateful asciicast-v3 text-frame encoding of one
session event.  `Init` sends the header line and then an output event at
interval 0 carrying the init sequence; `Exit` data is
`status.to_string()`, a JSON string. -/
def encodeV3Event (cfg : StreamerConfig) (now : ℚ) (st : StreamerState) :
    Event → StreamerState × List V3Line
  | .init time cols rows _ seq _ =>
    let st1 := { st with startTime := now, lastEventTime := some now }
    (st1,
      [.header
          { cols := cols
            rows := rows
            timestamp := ratAsI64 time
            termType := cfg.termType
            theme := cfg.theme
            title := cfg.title },
        .event 0 "o" (.str seq)])
  | .output _ data =>
    let p := calcIntervalSecs now st
    (p.2, [.event p.1 "o" (.str data)])
  | .resize _ cols rows =>
    let p := calcIntervalSecs now st
    (p.2, [.event p.1 "r" (.str (toString cols ++ "x" ++ toString rows))])
  | .marker _ label =>
    let p := calcIntervalSecs now st
    (p.2, [.event p.1 "m" (.str label)])
  | .input _ data =>
    if cfg.captureInput then
      let p := calcIntervalSecs now st
      (p.2, [.event p.1 "i" (.str data)])
    else
      (st, [])
  | .exit _ status =>
    let p := calcIntervalSecs now st
    (p.2, [.event p.1 "x" (.str (toString status))])
  | .snapshot _ _ _ _ => (st, [])

/-! ## Stateful local ALiS encoder (`src/streaming/alis_local.rs`) -/

/-- `convert_to_alis_binary` (the stateful local encoder): `Init` resets
the event id to zero and encodes with a literal `last_id = 0` and no
theme (never fails, modelled with the same `Option` shape as the remote
encoder); the other events increment the id first.  `Input` and
`Snapshot` produce no message. -/
def convertToAlisBinary (now : ℚ) (st : StreamerState) :
    Event → StreamerState × Option (List (List Nat))
  | .init _ cols rows _ seq _ =>
    let st1 :=
      { st with startTime := now, lastEventTime := some now, eventId := 0 }
    (st1, (encodeInit 0 0 (cols % 65536) (rows % 65536) none
      (strBytes seq)).map fun f => [f])
  | .output _ data =>
    let st1 := { st with eventId := st.eventId + 1 }
    let p := calcRelTimeMicros now st1
    (p.2, some [encodeOutput st1.eventId p.1 (strBytes data)])
  | .resize _ cols rows =>
    let st1 := { st with eventId := st.eventId + 1 }
    let p := calcRelTimeMicros now st1
    (p.2, some [encodeResize st1.eventId p.1 (cols % 65536) (rows % 65536)])
  | .marker _ label =>
    let st1 := { st with eventId := st.eventId + 1 }
    let p := calcRelTimeMicros now st1
    (p.2, some [encodeMarker st1.eventId p.1 (strBytes label)])
  | .exit _ status =>
    let st1 := { st with eventId := st.eventId + 1 }
    let p := calcRelTimeMicros now st1
    (p.2, some [encodeExit st1.eventId p.1 status])
  | .input _ _ => (st, some [])
  | .snapshot _ _ _ _ => (st, some [])

/-- Drive a stateful frame encoder over a timed event list, collecting
the emitted frames and aborting (as the send loops do on an encoding
error) when a step fails. -/
def alisRun
    (step : ℚ → StreamerState → Event → StreamerState × Option (List (List Nat))) :
    StreamerState → List (ℚ × Event) → List (List Nat)
  | _, [] => []
  | st, (t, e) :: rest =>
    match step t st e with
    | (st', some fs) => fs ++ alisRun step st' rest
    | (_, none) => []

/-- The id slot carried right after the type byte of an ALiS frame. -/
def alisFrameId (f : List Nat) : Option Nat :=
  match f with
  | _ :: rest => (decodeLeb128 rest).map Prod.fst
  | [] => none

/-- Whether an ALiS frame is an Init frame (type byte `0x01`). -/
def frameIsInit (f : List Nat) : Bool :=
  f.head? = some 0x01

/-! ## Theme construction in stream mode (`src/main.rs`) -/

/-- Theme construction in `run_stream_mode`: when both `--theme-fg` and
`--theme-bg` are given, build an `alis::Theme` with an empty palette;
otherwise no theme. -/
def streamModeTheme (themeFg themeBg : Option (List Char)) : Option Theme :=
  match themeFg, themeBg with
  | some fg, some bg => some ⟨fg, bg, []⟩
  | _, _ => none

/-! ## Concrete instances used by the closed theorems -/

/-- An environment with no variables set. -/
def envNone : String → Option String := fun _ => none

/-- A minimal recorder configuration: truncate mode, no idle limit, no
input capture. -/
def cfgRecBase : RecorderConfig :=
  ⟨"/tmp/out.cast", false, none, none, none, [], none, none, false⟩

/-- The base recorder configuration with `append = true`. -/
def cfgRecAppend : RecorderConfig :=
  { cfgRecBase with append := true }

/-- The base recorder configuration with a negative idle time limit. -/
def cfgRecNeg : RecorderConfig :=
  { cfgRecBase with idleTimeLimit := some (-1) }

/-- A minimal streamer configuration for the ALiS protocol. -/
def cfgStreamAlis : StreamerConfig :=
  ⟨"https://example.org", none, none, none, none, .alis, false, none, none⟩

/-- A minimal streamer configuration for the asciicast v3 subprotocol. -/
def cfgStreamV3 : StreamerConfig :=
  { cfgStreamAlis with protocol := .asciicastV3 }

/-- A three-event demo session: Init, one output, exit 0. -/
def tesDemo : List (ℚ × Event) :=
  [(0, .init 0 80 24 0 "init-seq" "tv"),
   (1, .output 1 "hello\n"),
   (2, .exit 2 0)]

/-! ## Helper lemmas -/

/-- Decoding a LEB128 prefix recovers the encoded value and the rest. -/
theorem decodeLeb128_encodeLeb128 (n : Nat) (rest : List Nat) :
    decodeLeb128 (encodeLeb128 n ++ rest) = some (n, rest) := by
  induction n using Nat.strong_induction_on with
  | _ n ih =>
    rw [encodeLeb128]
    by_cases h : n / 128 = 0
    · have hn : n < 128 := by omega
      simp [h, decodeLeb128, hn, Nat.mod_eq_of_lt hn]
    · have hlt : n / 128 < n := by omega
      have hge : ¬(n % 128 + 128 < 128) := by omega
      simp only [if_neg h, List.cons_append, decodeLeb128, hge, if_false,
        ih (n / 128) hlt]
      simp only [Option.some.injEq, Prod.mk.injEq, and_true]
      omega

/-- Full-input decoding of a LEB128 encoding recovers the value. -/
theorem decodeLeb128Full_encode (n : Nat) :
    decodeLeb128Full (encodeLeb128 n) = some n := by
  have h := decodeLeb128_encodeLeb128 n []
  rw [List.append_nil] at h
  simp [decodeLeb128Full, h]

/-- Decoding a length-prefixed string recovers the bytes. -/
theorem decodeString_encodeString (s : List Nat) :
    decodeString (encodeString s) = some (s, []) := by
  simp [decodeString, encodeString, decodeLeb128_encodeLeb128]

/-- A value below 128 encodes as a single LEB128 byte. -/
theorem encodeLeb128_small {n : Nat} (h : n < 128) : encodeLeb128 n = [n] := by
  rw [encodeLeb128]
  simp [Nat.div_eq_of_lt h, Nat.mod_eq_of_lt h]

/-- The id slot of a frame that starts with a byte and `LEB128(id)`. -/
theorem alisFrameId_cons_encode (b id : Nat) (tail : List Nat) :
    alisFrameId (b :: (encodeLeb128 id ++ tail)) = some id := by
  simp [alisFrameId, decodeLeb128_encodeLeb128]

/-- A failed entry poisons `seqOptions`. -/
theorem seqOptions_of_mem_none {α : Type} {os : List (Option α)}
    (h : none ∈ os) : seqOptions os = none := by
  induction os with
  | nil => simp at h
  | cons o os ih =>
    rw [List.mem_cons] at h
    match o with
    | none => simp [seqOptions]
    | some a =>
      have hn : none ∈ os := by
        rcases h with h | h
        · exact absurd h.symm (Option.some_ne_none a)
        · exact h
      simp [seqOptions, ih hn]

/-- A malformed palette entry within the encoded range appears as a
failed entry of the palette loop. -/
theorem paletteEntries_has_none {palette : List (List Char)} {i count : Nat}
    {c : List Char} (hc : palette[i]? = some c) (hpc : parseColor c = none)
    (hi : i < count) : none ∈ paletteEntries palette count := by
  unfold paletteEntries
  refine List.mem_map.mpr ⟨i, List.mem_range.mpr hi, ?_⟩
  simp [hc, hpc]

/-! ## Claim theorems -/

/-- C7: LEB128 and string serialization round-trip: for every
`n ∈ [0, 2^63)` decoding `encode_leb128(n)` yields `n`; the known vectors
`0 → 00`, `127 → 7F`, `128 → 80 01`, `300 → AC 02`, `16384 → 80 80 01`
hold; and decoding `encode_string(s)` yields `s` for every byte string. -/
theorem c7_leb128_string_roundtrip :
    (∀ n : Nat, n < 2 ^ 63 → decodeLeb128Full (encodeLeb128 n) = some n) ∧
    encodeLeb128 0 = [0x00] ∧
    encodeLeb128 127 = [0x7F] ∧
    encodeLeb128 128 = [0x80, 0x01] ∧
    encodeLeb128 300 = [0xAC, 0x02] ∧
    encodeLeb128 16384 = [0x80, 0x80, 0x01] ∧
    ∀ s : List Nat, decodeString (encodeString s) = some (s, []) := by
  refine ⟨fun n _ => decodeLeb128Full_encode n, ?_, ?_, ?_, ?_, ?_,
    decodeString_encodeString⟩
  all_goals simp [encodeLeb128]

/-- Witness for C7 at `n = 300`. -/
theorem c7_leb128_string_roundtrip_witness :
    300 < 2 ^ 63 ∧ decodeLeb128Full (encodeLeb128 300) = some 300 :=
  ⟨by norm_num, c7_leb128_string_roundtrip.1 300 (by norm_num)⟩

/-- C9: every ALiS event frame starts with its one-byte type, then
`LEB128(id)` and `LEB128(rel_time)`, then the type-specific payload;
`encode_init(0, 0, 80, 24, no theme, s)` is exactly
`01 00 00 50 18 00` followed by `LEB128(|s|)` and `s`; and
`encode_output(id, t, d)` is `6F LEB128(id) LEB128(t) LEB128(|d|) d`. -/
theorem c9_alis_frame_layout :
    (∀ id rt d, encodeOutput id rt d
        = 0x6F :: (encodeLeb128 id ++ (encodeLeb128 rt ++
            (encodeLeb128 d.length ++ d)))) ∧
    (∀ id rt d, ∃ pl, encodeInput id rt d
        = 0x69 :: (encodeLeb128 id ++ (encodeLeb128 rt ++ pl))) ∧
    (∀ id rt c r, ∃ pl, encodeResize id rt c r
        = 0x72 :: (encodeLeb128 id ++ (encodeLeb128 rt ++ pl))) ∧
    (∀ id rt l, ∃ pl, encodeMarker id rt l
        = 0x6D :: (encodeLeb128 id ++ (encodeLeb128 rt ++ pl))) ∧
    (∀ id rt s, ∃ pl, encodeExit id rt s
        = 0x78 :: (encodeLeb128 id ++ (encodeLeb128 rt ++ pl))) ∧
    (∀ id rt, encodeEot id rt = 0x04 :: (encodeLeb128 id ++ encodeLeb128 rt)) ∧
    (∀ lastId rt c r th d, encodeInit lastId rt c r th d = none ∨
        ∃ pl, encodeInit lastId rt c r th d
          = some (0x01 :: (encodeLeb128 lastId ++ (encodeLeb128 rt ++ pl)))) ∧
    (∀ s : List Nat, encodeInit 0 0 80 24 none s
        = some ([0x01, 0x00, 0x00, 0x50, 0x18, 0x00] ++
            (encodeLeb128 s.length ++ s))) := by
  refine ⟨fun id rt d => by simp [encodeOutput, encodeString],
    fun id rt d => ⟨encodeString d, by simp [encodeInput]⟩,
    fun id rt c r => ⟨encodeLeb128 c ++ encodeLeb128 r, by simp [encodeResize]⟩,
    fun id rt l => ⟨encodeString l, by simp [encodeMarker]⟩,
    fun id rt s => ⟨encodeLeb128 (intToU64 s), by simp [encodeExit]⟩,
    fun id rt => by rfl, ?_, ?_⟩
  · intro lastId rt c r th d
    cases h : encodeTheme th with
    | none => exact Or.inl (by simp [encodeInit, h])
    | some tb =>
      exact Or.inr ⟨encodeLeb128 c ++ (encodeLeb128 r ++ (tb ++ encodeString d)),
        by simp [encodeInit, h]⟩
  · intro s
    have h0 : encodeLeb128 0 = [0] := encodeLeb128_small (by norm_num)
    have h80 : encodeLeb128 80 = [80] := encodeLeb128_small (by norm_num)
    have h24 : encodeLeb128 24 = [24] := encodeLeb128_small (by norm_num)
    simp [encodeInit, encodeTheme, encodeString, h0, h80, h24]

/-- C10: a theme with an empty palette encodes to the single byte `0x00`,
identically to no theme and without parsing fg/bg (they are universally
quantified, malformed or not); stream mode builds its theme from the CLI
colors with an empty palette, so those colors never change the encoded
ALiS Init frame. -/
theorem c10_empty_palette_theme :
    (∀ fg bg, encodeTheme (some ⟨fg, bg, []⟩) = some [0x00]) ∧
    encodeTheme none = some [0x00] ∧
    (∀ fg bg lastId rt c r d,
        encodeInit lastId rt c r (some ⟨fg, bg, []⟩) d
          = encodeInit lastId rt c r none d) ∧
    (∀ fg bg, streamModeTheme (some fg) (some bg) = some ⟨fg, bg, []⟩) ∧
    (∀ fg bg url iid iip t v ci tt now st time cols rows pid seq text,
        encodeAlisEvent
            ⟨url, iid, iip, t, v, .alis, ci,
              streamModeTheme (some fg) (some bg), tt⟩
            now st (.init time cols rows pid seq text)
          = encodeAlisEvent ⟨url, iid, iip, t, v, .alis, ci, none, tt⟩
            now st (.init time cols rows pid seq text)) := by
  refine ⟨fun fg bg => rfl, rfl, fun fg bg lastId rt c r d => ?_,
    fun fg bg => rfl, ?_⟩
  · simp [encodeInit, encodeTheme]
  · intro fg bg url iid iip t v ci tt now st time cols rows pid seq text
    simp [encodeAlisEvent, streamModeTheme, encodeInit, encodeTheme]

/-- C8 counterexample: with an empty palette, `encode_theme` succeeds even
though the fg (and bg) color is malformed, refuting "encode_theme fails
whenever any of the theme's fg, bg, or palette color strings is
malformed". -/
theorem c8_counterexample :
    parseColor ("zzzzzz".data) = none ∧
    encodeTheme (some ⟨"zzzzzz".data, "zzzzzz".data, []⟩) = some [0x00] :=
  ⟨by decide, by decide⟩

/-- C8 (amended): the `parse_color` vectors hold (`#000000`, `#FFFFFF`,
`#123456` parse; `#abc`, `zzzzzz` and the empty string fail), and
`encode_theme` fails whenever the palette is non-empty and fg, bg, or a
palette entry within the encoded range (index below `min(len, 16)`) is
malformed. -/
theorem c8_color_parsing :
    parseColor ("#000000".data) = some [0, 0, 0] ∧
    parseColor ("#FFFFFF".data) = some [255, 255, 255] ∧
    parseColor ("#123456".data) = some [0x12, 0x34, 0x56] ∧
    parseColor ("#abc".data) = none ∧
    parseColor ("zzzzzz".data) = none ∧
    parseColor ("".data) = none ∧
    ∀ t : Theme, t.palette ≠ [] →
      (parseColor t.fg = none ∨ parseColor t.bg = none ∨
        ∃ i c, i < 16 ∧ t.palette[i]? = some c ∧ parseColor c = none) →
      encodeTheme (some t) = none := by
  refine ⟨by decide, by decide, by decide, by decide, by decide, by decide, ?_⟩
  intro t hne hbad
  have hlen : ¬t.palette.length = 0 := fun h => hne (List.length_eq_zero.mp h)
  simp only [encodeTheme]
  rw [if_neg hlen]
  by_cases h8 : t.palette.length ≤ 8
  · rw [if_pos h8]
    rcases hbad with hfg | hbg | ⟨i, c, _, hic, hpc⟩
    · simp [hfg]
    · cases hx : parseColor t.fg <;> simp [hx, hbg]
    · have hi : i < t.palette.length := by
        have := List.getElem?_eq_some.mp hic
        exact this.1
      have hmem : none ∈ paletteEntries t.palette 8 :=
        paletteEntries_has_none hic hpc (lt_of_lt_of_le hi h8)
      have hseq := seqOptions_of_mem_none hmem
      cases hx : parseColor t.fg <;> cases hy : parseColor t.bg <;>
        simp [hx, hy, hseq]
  · rw [if_neg h8]
    rcases hbad with hfg | hbg | ⟨i, c, hi16, hic, hpc⟩
    · simp [hfg]
    · cases hx : parseColor t.fg <;> simp [hx, hbg]
    · have hmem : none ∈ paletteEntries t.palette 16 :=
        paletteEntries_has_none hic hpc hi16
      have hseq := seqOptions_of_mem_none hmem
      cases hx : parseColor t.fg <;> cases hy : parseColor t.bg <;>
        simp [hx, hy, hseq]

/-- Witness for C8 (amended) at a non-empty palette with malformed fg. -/
theorem c8_color_parsing_witness :
    ((⟨"zzzzzz".data, "#000000".data, ["#000000".data]⟩ : Theme).palette ≠ []) ∧
    encodeTheme (some ⟨"zzzzzz".data, "#000000".data, ["#000000".data]⟩)
      = none :=
  ⟨by decide,
    c8_color_parsing.2.2.2.2.2.2 _ (by decide) (Or.inl (by decide))⟩

/-- C1 (code divergence at the failing input): at `Exit(status = 0)` the
file recorder writes the status as the JSON number `0`, but the
v3-subprotocol streamer emits the JSON string `"0"`
(`status.to_string()`), so the streamer violates the mandated
JSON-number exit datum. -/
theorem c1_exit_datum_divergence :
    (handleEvent cfgRecBase envNone 0 0 (recorderNew 0) (Event.exit 0 0)).2
        = [CastLine.event 0 "x" (JsonDatum.num 0)]
    ∧ (encodeV3Event cfgStreamV3 0 (streamerNew 0) (Event.exit 0 0)).2
        = [V3Line.event 0 "x" (JsonDatum.str "0")] :=
  ⟨by decide, by decide⟩

/-- C2 (code divergence at the failing input): running the recorder twice
in append mode yields two header lines, because `header_written` starts
`false` on every run and the existing file is never consulted, so the
first `Init` of the second run re-writes the header. -/
theorem c2_append_double_header :
    ((recordRun cfgRecAppend envNone 200 10 tesDemo
        (recordRun cfgRecAppend envNone 100 0 tesDemo [])).filter
          (fun l => l.isHeader)).length = 2 := by
  decide

/-- C3 counterexample: handling `Init` under the v3 subprotocol emits an
output event whose data equals the Init's `init_seq`, refuting "the v3
subprotocol stream likewise contains no output event whose data equals
init_seq". -/
theorem c3_counterexample :
    (encodeV3Event cfgStreamV3 0 (streamerNew 0)
        (Event.init 0 80 24 0 "abc" "tv")).2
      = [V3Line.header ⟨80, 24, 0, none, none, none⟩,
         V3Line.event 0 "o" (.str "abc")] := by
  decide

/-- C3 (amended): the file recorder writes no event line for `Init` (at
most the header line), while the v3-subprotocol encoder emits the header
followed by an output event at interval 0 carrying the Init's
`init_seq`. -/
theorem c3_init_no_output_event :
    (∀ cfg env wall now st time cols rows pid seq text,
        ((handleEvent cfg env wall now st
            (Event.init time cols rows pid seq text)).2.filter
          (fun l => l.isEvent)) = []) ∧
    (∀ cfg now st time cols rows pid seq text,
        (encodeV3Event cfg now st (Event.init time cols rows pid seq text)).2
          = [V3Line.header
              ⟨cols, rows, ratAsI64 time, cfg.termType, cfg.theme, cfg.title⟩,
             V3Line.event 0 "o" (.str seq)]) := by
  constructor
  · intro cfg env wall now st time cols rows pid seq text
    simp only [handleEvent]
    split <;> simp [CastLine.isEvent]
  · intro cfg now st time cols rows pid seq text
    rfl

/-- C4 counterexample: a configured install-id value is returned without
trimming, refuting "in every one of these three cases the returned
install-id string is trimmed of surrounding whitespace". -/
theorem c4_counterexample :
    getInstallId ⟨"u", some " abc ", none, none, none, .alis, false, none, none⟩
        (fun _ => none) none = some " abc "
    ∧ rustTrim " abc " ≠ " abc " :=
  ⟨by decide, by decide⟩

/-- C4 (amended): `get_install_id` resolves with precedence config value,
then configured path, then `$HOME/.config/asciinema/install-id`; the two
file-read paths trim surrounding whitespace, while the config value is
returned verbatim (untrimmed). -/
theorem c4_install_id_resolution :
    (∀ url p t v proto ci th tt id fs home,
        getInstallId ⟨url, some id, p, t, v, proto, ci, th, tt⟩ fs home
          = some id) ∧
    (∀ url t v proto ci th tt p fs home,
        getInstallId ⟨url, none, some p, t, v, proto, ci, th, tt⟩ fs home
          = (fs p).map rustTrim) ∧
    (∀ url t v proto ci th tt fs h,
        getInstallId ⟨url, none, none, t, v, proto, ci, th, tt⟩ fs (some h)
          = (fs (h ++ "/.config/asciinema/install-id")).map rustTrim) :=
  ⟨fun _ _ _ _ _ _ _ _ _ _ _ => rfl, fun _ _ _ _ _ _ _ _ _ _ => rfl,
    fun _ _ _ _ _ _ _ _ _ => rfl⟩

end Ht

namespace Ht

/-- With a nonnegative (or absent) idle limit, `calculate_interval` is
nonnegative. -/
theorem calcInterval_nonneg (cfg : RecorderConfig) (now : ℚ) (st : RecState)
    (hL : ∀ L, cfg.idleTimeLimit = some L → 0 ≤ L) :
    0 ≤ (calcInterval cfg now st).1 := by
  have hraw : (0:ℚ) ≤
      match st.lastEventTime with
      | some l => if l ≤ now then now - l else 0
      | none => 0 := by
    cases st.lastEventTime with
    | none => simp
    | some l =>
      by_cases h : l ≤ now <;> simp [h]
  cases hlim : cfg.idleTimeLimit with
  | none => simpa [calcInterval, hlim] using hraw
  | some L =>
    simp only [calcInterval, hlim]
    exact le_min hraw (hL L hlim)

/-- `calculate_interval` never exceeds a configured idle limit. -/
theorem calcInterval_le_limit (cfg : RecorderConfig) (now : ℚ) (st : RecState)
    (L : ℚ) (hlim : cfg.idleTimeLimit = some L) :
    (calcInterval cfg now st).1 ≤ L := by
  simp only [calcInterval, hlim]
  exact min_le_right _ _

/-- With no recorded previous event time and a nonnegative (or absent)
idle limit, `calculate_interval` is zero. -/
theorem calcInterval_of_none (cfg : RecorderConfig) (now : ℚ) (st : RecState)
    (hL : ∀ L, cfg.idleTimeLimit = some L → 0 ≤ L)
    (hnone : st.lastEventTime = none) :
    (calcInterval cfg now st).1 = 0 := by
  cases hlim : cfg.idleTimeLimit with
  | none => simp [calcInterval, hlim, hnone]
  | some L =>
    simp only [calcInterval, hlim, hnone]
    exact min_eq_left (hL L hlim)

/-- Every event line emitted by a single `handle_event` call satisfies
the interval bounds. -/
theorem handleEvent_interval_bounds (cfg : RecorderConfig)
    (env : String → Option String) (wall : Int) (now : ℚ) (st : RecState)
    (e : Event) (hL : ∀ L, cfg.idleTimeLimit = some L → 0 ≤ L) :
    ∀ i code d, CastLine.event i code d ∈ (handleEvent cfg env wall now st e).2 →
      0 ≤ i ∧ ∀ L, cfg.idleTimeLimit = some L → i ≤ L := by
  intro i code d hmem
  have hbounds : 0 ≤ (calcInterval cfg now st).1 ∧
      ∀ L, cfg.idleTimeLimit = some L → (calcInterval cfg now st).1 ≤ L :=
    ⟨calcInterval_nonneg cfg now st hL,
      fun L h => calcInterval_le_limit cfg now st L h⟩
  cases e with
  | init time cols rows pid seq text =>
    simp only [handleEvent] at hmem
    split at hmem <;> simp at hmem
  | output _ data =>
    simp only [handleEvent] at hmem
    simp at hmem
    obtain ⟨hi, -, -⟩ := hmem
    rw [hi]
    exact hbounds
  | resize _ cols rows =>
    simp only [handleEvent] at hmem
    simp at hmem
    obtain ⟨hi, -, -⟩ := hmem
    rw [hi]
    exact hbounds
  | marker _ label =>
    simp only [handleEvent] at hmem
    simp at hmem
    obtain ⟨hi, -, -⟩ := hmem
    rw [hi]
    exact hbounds
  | input _ data =>
    by_cases hci : cfg.captureInput
    · simp only [handleEvent, hci, if_true] at hmem
      simp at hmem
      obtain ⟨hi, -, -⟩ := hmem
      rw [hi]
      exact hbounds
    · simp [handleEvent, hci] at hmem
  | exit _ status =>
    simp only [handleEvent] at hmem
    simp at hmem
    obtain ⟨hi, -, -⟩ := hmem
    rw [hi]
    exact hbounds
  | snapshot _ cols rows text =>
    simp [handleEvent] at hmem

/-- Interval bounds lift to every line of a recorded trace. -/
theorem recSteps_interval_bounds (cfg : RecorderConfig)
    (env : String → Option String) (wall : Int)
    (hL : ∀ L, cfg.idleTimeLimit = some L → 0 ≤ L) :
    ∀ (tes : List (ℚ × Event)) (st : RecState) (i : ℚ) (code : String)
      (d : JsonDatum), CastLine.event i code d ∈ recSteps cfg env wall st tes →
      0 ≤ i ∧ ∀ L, cfg.idleTimeLimit = some L → i ≤ L := by
  intro tes
  induction tes with
  | nil => intro st i code d hmem; simp [recSteps] at hmem
  | cons te rest ih =>
    intro st i code d hmem
    obtain ⟨t, e⟩ := te
    simp only [recSteps, List.mem_append] at hmem
    rcases hmem with h | h
    · exact handleEvent_interval_bounds cfg env wall t st e hL i code d h
    · exact ih _ i code d h

/-- C5 (amended): with `idle_time_limit` unset or set to `L ≥ 0`, every
interval written to an event line is nonnegative, and never exceeds `L`
when set; an event handled while no previous event time is recorded is
written with interval 0.  (After an `Init` — which records its own
handling instant — the next event's interval is the clamped elapsed real
time since `Init`, not necessarily 0.) -/
theorem c5_recorder_intervals (cfg : RecorderConfig)
    (env : String → Option String) (wall : Int) (t0 : ℚ)
    (tes : List (ℚ × Event))
    (hL : ∀ L, cfg.idleTimeLimit = some L → 0 ≤ L) :
    (∀ i code d,
        CastLine.event i code d ∈ recSteps cfg env wall (recorderNew t0) tes →
        0 ≤ i ∧ ∀ L, cfg.idleTimeLimit = some L → i ≤ L) ∧
    (∀ (now : ℚ) (st : RecState) (e : Event) i code d,
        st.lastEventTime = none →
        CastLine.event i code d ∈ (handleEvent cfg env wall now st e).2 →
        i = 0) := by
  constructor
  · intro i code d hmem
    exact recSteps_interval_bounds cfg env wall hL tes (recorderNew t0) i code d hmem
  · intro now st e i code d hnone hmem
    have hz := calcInterval_of_none cfg now st hL hnone
    cases e with
    | init time cols rows pid seq text =>
      simp only [handleEvent] at hmem
      split at hmem <;> simp at hmem
    | output _ data =>
      simp only [handleEvent] at hmem
      simp at hmem
      obtain ⟨hi, -, -⟩ := hmem
      rw [hi, hz]
    | resize _ cols rows =>
      simp only [handleEvent] at hmem
      simp at hmem
      obtain ⟨hi, -, -⟩ := hmem
      rw [hi, hz]
    | marker _ label =>
      simp only [handleEvent] at hmem
      simp at hmem
      obtain ⟨hi, -, -⟩ := hmem
      rw [hi, hz]
    | input _ data =>
      by_cases hci : cfg.captureInput
      · simp only [handleEvent, hci, if_true] at hmem
        simp at hmem
        obtain ⟨hi, -, -⟩ := hmem
        rw [hi, hz]
      · simp [handleEvent, hci] at hmem
    | exit _ status =>
      simp only [handleEvent] at hmem
      simp at hmem
      obtain ⟨hi, -, -⟩ := hmem
      rw [hi, hz]
    | snapshot _ cols rows text =>
      simp [handleEvent] at hmem

/-- Witness for C5 (amended) on the demo trace with no idle limit. -/
theorem c5_recorder_intervals_witness :
    (∀ L, cfgRecBase.idleTimeLimit = some L → 0 ≤ L) ∧
    ((∀ i code d,
        CastLine.event i code d ∈
          recSteps cfgRecBase envNone 0 (recorderNew 0) tesDemo →
        0 ≤ i ∧ ∀ L, cfgRecBase.idleTimeLimit = some L → i ≤ L) ∧
      (∀ (now : ℚ) (st : RecState) (e : Event) i code d,
          st.lastEventTime = none →
          CastLine.event i code d ∈
            (handleEvent cfgRecBase envNone 0 now st e).2 →
          i = 0)) := by
  have hL : ∀ L, cfgRecBase.idleTimeLimit = some L → 0 ≤ L := by
    intro L h
    simp [cfgRecBase] at h
  exact ⟨hL, c5_recorder_intervals cfgRecBase envNone 0 0 tesDemo hL⟩

/-- C5 counterexample: with `idle_time_limit = -1` (an arbitrary
`RecorderConfig`), the clamped interval written for the first post-header
event is `-1`: negative (refuting "every interval is ≥ 0 under any
`RecorderConfig`") and nonzero (refuting "the first event after the
header has interval 0", here with one second elapsed since `Init`). -/
theorem c5_counterexample :
    recSteps cfgRecNeg envNone 0 (recorderNew 0)
        [(0, .init 0 80 24 0 "s" "t"), (1, .output 1 "a")]
      = [CastLine.header (mkRecHeader cfgRecNeg envNone 0 80 24),
         CastLine.event (-1) "o" (.str "a")]
    ∧ ¬((0:ℚ) ≤ -1) := by
  constructor
  · simp [recSteps, handleEvent, calcInterval, recorderNew, cfgRecNeg,
      cfgRecBase, min_def]
  · norm_num

/-- The id slot of an encoded Output frame. -/
theorem alisFrameId_encodeOutput (id rt : Nat) (d : List Nat) :
    alisFrameId (encodeOutput id rt d) = some id := by
  simp only [encodeOutput, List.append_assoc]
  exact alisFrameId_cons_encode _ _ _

/-- The id slot of an encoded Input frame. -/
theorem alisFrameId_encodeInput (id rt : Nat) (d : List Nat) :
    alisFrameId (encodeInput id rt d) = some id := by
  simp only [encodeInput, List.append_assoc]
  exact alisFrameId_cons_encode _ _ _

/-- The id slot of an encoded Resize frame. -/
theorem alisFrameId_encodeResize (id rt c r : Nat) :
    alisFrameId (encodeResize id rt c r) = some id := by
  simp only [encodeResize, List.append_assoc]
  exact alisFrameId_cons_encode _ _ _

/-- The id slot of an encoded Marker frame. -/
theorem alisFrameId_encodeMarker (id rt : Nat) (l : List Nat) :
    alisFrameId (encodeMarker id rt l) = some id := by
  simp only [encodeMarker, List.append_assoc]
  exact alisFrameId_cons_encode _ _ _

/-- The id slot of an encoded Exit frame. -/
theorem alisFrameId_encodeExit (id rt : Nat) (s : Int) :
    alisFrameId (encodeExit id rt s) = some id := by
  simp only [encodeExit, List.append_assoc]
  exact alisFrameId_cons_encode _ _ _

/-- Non-Init frames carry their type byte, not `0x01`. -/
theorem frameIsInit_encodeOutput (id rt : Nat) (d : List Nat) :
    frameIsInit (encodeOutput id rt d) = false := by
  simp [frameIsInit, encodeOutput]

/-- Non-Init frames carry their type byte, not `0x01` (Input). -/
theorem frameIsInit_encodeInput (id rt : Nat) (d : List Nat) :
    frameIsInit (encodeInput id rt d) = false := by
  simp [frameIsInit, encodeInput]

/-- Non-Init frames carry their type byte, not `0x01` (Resize). -/
theorem frameIsInit_encodeResize (id rt c r : Nat) :
    frameIsInit (encodeResize id rt c r) = false := by
  simp [frameIsInit, encodeResize]

/-- Non-Init frames carry their type byte, not `0x01` (Marker). -/
theorem frameIsInit_encodeMarker (id rt : Nat) (l : List Nat) :
    frameIsInit (encodeMarker id rt l) = false := by
  simp [frameIsInit, encodeMarker]

/-- Non-Init frames carry their type byte, not `0x01` (Exit). -/
theorem frameIsInit_encodeExit (id rt : Nat) (s : Int) :
    frameIsInit (encodeExit id rt s) = false := by
  simp [frameIsInit, encodeExit]

/-- A successfully encoded Init frame carries `last_id` in its id slot
and the Init type byte. -/
theorem encodeInit_some_props {lastId rt c r : Nat} {th : Option Theme}
    {d f : List Nat} (h : encodeInit lastId rt c r th d = some f) :
    alisFrameId f = some lastId ∧ frameIsInit f = true := by
  unfold encodeInit at h
  cases hth : encodeTheme th with
  | none => rw [hth] at h; simp at h
  | some tb =>
    rw [hth] at h
    simp only [Option.map_some'] at h
    obtain rfl := Option.some.injEq _ _ ▸ h.symm
    constructor
    · simp only [List.append_assoc]
      exact alisFrameId_cons_encode _ _ _
    · simp [frameIsInit]

/-- In a run of the remote ALiS encoder over Init-free events, the
emitted frames carry consecutive ids continuing from the current
`event_id`, and none of them is an Init frame. -/
theorem alisRun_remote_noInit (cfg : StreamerConfig) :
    ∀ (tes : List (ℚ × Event)) (st : StreamerState),
      (∀ p ∈ tes, (p.2).isInit = false) →
      ((alisRun (encodeAlisEvent cfg) st tes).map alisFrameId
          = (List.range' (st.eventId + 1)
              (alisRun (encodeAlisEvent cfg) st tes).length).map some)
        ∧ ∀ f ∈ alisRun (encodeAlisEvent cfg) st tes, frameIsInit f = false := by
  intro tes
  induction tes with
  | nil => intro st _; simp [alisRun]
  | cons te rest ih =>
    intro st h
    obtain ⟨t, e⟩ := te
    have hrest : ∀ p ∈ rest, (p.2).isInit = false :=
      fun p hp => h p (List.mem_cons_of_mem _ hp)
    have hhead : Event.isInit e = false := h (t, e) (List.mem_cons_self _ _)
    cases e with
    | init time cols rows pid seq text => simp [Event.isInit] at hhead
    | output time data =>
      have key := ih ((calcRelTimeMicros t { st with eventId := st.eventId + 1 }).2)
        hrest
      simp only [alisRun, encodeAlisEvent]
      simp only [calcRelTimeMicros] at key ⊢
      constructor
      · simp only [List.singleton_append, List.map_cons, List.length_cons,
          List.range'_succ, alisFrameId_encodeOutput]
        rw [key.1]
      · intro f hf
        rcases List.mem_cons.mp hf with rfl | hf
        · exact frameIsInit_encodeOutput _ _ _
        · exact key.2 f hf
    | resize time cols rows =>
      have key := ih ((calcRelTimeMicros t { st with eventId := st.eventId + 1 }).2)
        hrest
      simp only [alisRun, encodeAlisEvent]
      simp only [calcRelTimeMicros] at key ⊢
      constructor
      · simp only [List.singleton_append, List.map_cons, List.length_cons,
          List.range'_succ, alisFrameId_encodeResize]
        rw [key.1]
      · intro f hf
        rcases List.mem_cons.mp hf with rfl | hf
        · exact frameIsInit_encodeResize _ _ _ _
        · exact key.2 f hf
    | marker time label =>
      have key := ih ((calcRelTimeMicros t { st with eventId := st.eventId + 1 }).2)
        hrest
      simp only [alisRun, encodeAlisEvent]
      simp only [calcRelTimeMicros] at key ⊢
      constructor
      · simp only [List.singleton_append, List.map_cons, List.length_cons,
          List.range'_succ, alisFrameId_encodeMarker]
        rw [key.1]
      · intro f hf
        rcases List.mem_cons.mp hf with rfl | hf
        · exact frameIsInit_encodeMarker _ _ _
        · exact key.2 f hf
    | exit time status =>
      have key := ih ((calcRelTimeMicros t { st with eventId := st.eventId + 1 }).2)
        hrest
      simp only [alisRun, encodeAlisEvent]
      simp only [calcRelTimeMicros] at key ⊢
      constructor
      · simp only [List.singleton_append, List.map_cons, List.length_cons,
          List.range'_succ, alisFrameId_encodeExit]
        rw [key.1]
      · intro f hf
        rcases List.mem_cons.mp hf with rfl | hf
        · exact frameIsInit_encodeExit _ _ _
        · exact key.2 f hf
    | input time data =>
      by_cases hci : cfg.captureInput
      · have key := ih ((calcRelTimeMicros t { st with eventId := st.eventId + 1 }).2)
          hrest
        simp only [alisRun, encodeAlisEvent, hci, if_true]
        simp only [calcRelTimeMicros] at key ⊢
        constructor
        · simp only [List.singleton_append, List.map_cons, List.length_cons,
            List.range'_succ, alisFrameId_encodeInput]
          rw [key.1]
        · intro f hf
          rcases List.mem_cons.mp hf with rfl | hf
          · exact frameIsInit_encodeInput _ _ _
          · exact key.2 f hf
      · have key := ih st hrest
        simp only [alisRun, encodeAlisEvent, hci, if_false]
        simpa using key
    | snapshot time cols rows text =>
      have key := ih st hrest
      simp only [alisRun, encodeAlisEvent]
      simpa using key

/-- In a run of the local stateful ALiS encoder over Init-free events,
the emitted frames carry consecutive ids continuing from the current
`event_id`, and none of them is an Init frame. -/
theorem alisRun_local_noInit :
    ∀ (tes : List (ℚ × Event)) (st : StreamerState),
      (∀ p ∈ tes, (p.2).isInit = false) →
      ((alisRun convertToAlisBinary st tes).map alisFrameId
          = (List.range' (st.eventId + 1)
              (alisRun convertToAlisBinary st tes).length).map some)
        ∧ ∀ f ∈ alisRun convertToAlisBinary st tes, frameIsInit f = false := by
  intro tes
  induction tes with
  | nil => intro st _; simp [alisRun]
  | cons te rest ih =>
    intro st h
    obtain ⟨t, e⟩ := te
    have hrest : ∀ p ∈ rest, (p.2).isInit = false :=
      fun p hp => h p (List.mem_cons_of_mem _ hp)
    have hhead : Event.isInit e = false := h (t, e) (List.mem_cons_self _ _)
    cases e with
    | init time cols rows pid seq text => simp [Event.isInit] at hhead
    | output time data =>
      have key := ih ((calcRelTimeMicros t { st with eventId := st.eventId + 1 }).2)
        hrest
      simp only [alisRun, convertToAlisBinary]
      simp only [calcRelTimeMicros] at key ⊢
      constructor
      · simp only [List.singleton_append, List.map_cons, List.length_cons,
          List.range'_succ, alisFrameId_encodeOutput]
        rw [key.1]
      · intro f hf
        rcases List.mem_cons.mp hf with rfl | hf
        · exact frameIsInit_encodeOutput _ _ _
        · exact key.2 f hf
    | resize time cols rows =>
      have key := ih ((calcRelTimeMicros t { st with eventId := st.eventId + 1 }).2)
        hrest
      simp only [alisRun, convertToAlisBinary]
      simp only [calcRelTimeMicros] at key ⊢
      constructor
      · simp only [List.singleton_append, List.map_cons, List.length_cons,
          List.range'_succ, alisFrameId_encodeResize]
        rw [key.1]
      · intro f hf
        rcases List.mem_cons.mp hf with rfl | hf
        · exact frameIsInit_encodeResize _ _ _ _
        · exact key.2 f hf
    | marker time label =>
      have key := ih ((calcRelTimeMicros t { st with eventId := st.eventId + 1 }).2)
        hrest
      simp only [alisRun, convertToAlisBinary]
      simp only [calcRelTimeMicros] at key ⊢
      constructor
      · simp only [List.singleton_append, List.map_cons, List.length_cons,
          List.range'_succ, alisFrameId_encodeMarker]
        rw [key.1]
      · intro f hf
        rcases List.mem_cons.mp hf with rfl | hf
        · exact frameIsInit_encodeMarker _ _ _
        · exact key.2 f hf
    | exit time status =>
      have key := ih ((calcRelTimeMicros t { st with eventId := st.eventId + 1 }).2)
        hrest
      simp only [alisRun, convertToAlisBinary]
      simp only [calcRelTimeMicros] at key ⊢
      constructor
      · simp only [List.singleton_append, List.map_cons, List.length_cons,
          List.range'_succ, alisFrameId_encodeExit]
        rw [key.1]
      · intro f hf
        rcases List.mem_cons.mp hf with rfl | hf
        · exact frameIsInit_encodeExit _ _ _
        · exact key.2 f hf
    | input time data =>
      have key := ih st hrest
      simp only [alisRun, convertToAlisBinary]
      simpa using key
    | snapshot time cols rows text =>
      have key := ih st hrest
      simp only [alisRun, convertToAlisBinary]
      simpa using key

/-- All-non-Init frame lists pass the non-Init filter unchanged. -/
theorem filter_not_init_eq_self {fs : List (List Nat)}
    (h : ∀ f ∈ fs, frameIsInit f = false) :
    fs.filter (fun f => !frameIsInit f) = fs :=
  List.filter_eq_self.mpr fun f hf => by rw [h f hf]; rfl

/-- C6: within a single ALiS stream started from a fresh state (a single
`Init`, only possibly at the head), the ids carried by the non-Init
frames emitted by the remote streamer's `encode_alis_event` are exactly
`1, 2, 3, …` in order, any Init frame carries `last_id = 0` in its id
slot, and the same holds for the local stateful
`convert_to_alis_binary`. -/
theorem c6_alis_monotone_ids (cfg : StreamerConfig) (t0 : ℚ)
    (tes : List (ℚ × Event))
    (h : ∀ p ∈ tes.tail, (p.2).isInit = false) :
    (((alisRun (encodeAlisEvent cfg) (streamerNew t0) tes).filter
          (fun f => !frameIsInit f)).map alisFrameId
        = (List.range' 1
            ((alisRun (encodeAlisEvent cfg) (streamerNew t0) tes).filter
              (fun f => !frameIsInit f)).length).map some
      ∧ ∀ f ∈ alisRun (encodeAlisEvent cfg) (streamerNew t0) tes,
          frameIsInit f = true → alisFrameId f = some 0)
    ∧ (((alisRun convertToAlisBinary (streamerNew t0) tes).filter
          (fun f => !frameIsInit f)).map alisFrameId
        = (List.range' 1
            ((alisRun convertToAlisBinary (streamerNew t0) tes).filter
              (fun f => !frameIsInit f)).length).map some
      ∧ ∀ f ∈ alisRun convertToAlisBinary (streamerNew t0) tes,
          frameIsInit f = true → alisFrameId f = some 0) := by
  cases tes with
  | nil =>
    refine ⟨⟨?_, ?_⟩, ⟨?_, ?_⟩⟩ <;> simp [alisRun]
  | cons te rest =>
    obtain ⟨t, e⟩ := te
    have htail : ∀ p ∈ rest, (p.2).isInit = false := by simpa using h
    by_cases hini : e.isInit = true
    · cases e with
      | init time cols rows pid seq text =>
        constructor
        · -- remote encoder, head Init
          simp only [alisRun, encodeAlisEvent, streamerNew]
          cases hEnc : encodeInit 0 0 (cols % 65536) (rows % 65536) cfg.theme
              (strBytes seq) with
          | none => simp
          | some f0 =>
            simp only [Option.map_some']
            obtain ⟨hid0, hini0⟩ := encodeInit_some_props hEnc
            have key := alisRun_remote_noInit cfg rest
              ⟨0, some t, t⟩ htail
            simp only [List.singleton_append, List.filter_cons, hini0,
              Bool.not_true, if_false]
            refine ⟨?_, ?_⟩
            · rw [filter_not_init_eq_self key.2]
              simpa using key.1
            · intro f hf hft
              rcases List.mem_cons.mp hf with rfl | hf
              · exact hid0
              · exact absurd hft (by simp [key.2 f hf])
        · -- local encoder, head Init
          simp only [alisRun, convertToAlisBinary, streamerNew]
          cases hEnc : encodeInit 0 0 (cols % 65536) (rows % 65536) none
              (strBytes seq) with
          | none => simp
          | some f0 =>
            simp only [Option.map_some']
            obtain ⟨hid0, hini0⟩ := encodeInit_some_props hEnc
            have key := alisRun_local_noInit rest ⟨0, some t, t⟩ htail
            simp only [List.singleton_append, List.filter_cons, hini0,
              Bool.not_true, if_false]
            refine ⟨?_, ?_⟩
            · rw [filter_not_init_eq_self key.2]
              simpa using key.1
            · intro f hf hft
              rcases List.mem_cons.mp hf with rfl | hf
              · exact hid0
              · exact absurd hft (by simp [key.2 f hf])
      | output time data => simp [Event.isInit] at hini
      | input time data => simp [Event.isInit] at hini
      | resize time cols rows => simp [Event.isInit] at hini
      | marker time label => simp [Event.isInit] at hini
      | snapshot time cols rows text => simp [Event.isInit] at hini
      | exit time status => simp [Event.isInit] at hini
    · have he : e.isInit = false := by
        revert hini
        cases e.isInit <;> simp
      have hall : ∀ p ∈ (t, e) :: rest, (p.2).isInit = false := by
        intro p hp
        rcases List.mem_cons.mp hp with rfl | hp
        · exact he
        · exact htail p hp
      constructor
      · have key := alisRun_remote_noInit cfg ((t, e) :: rest)
          (streamerNew t0) hall
        refine ⟨?_, ?_⟩
        · rw [filter_not_init_eq_self key.2]
          simpa [streamerNew] using key.1
        · intro f hf hft
          exact absurd hft (by simp [key.2 f hf])
      · have key := alisRun_local_noInit ((t, e) :: rest)
          (streamerNew t0) hall
        refine ⟨?_, ?_⟩
        · rw [filter_not_init_eq_self key.2]
          simpa [streamerNew] using key.1
        · intro f hf hft
          exact absurd hft (by simp [key.2 f hf])

/-- Witness for C6 on the demo trace (Init, then output, then exit). -/
theorem c6_alis_monotone_ids_witness :
    (∀ p ∈ tesDemo.tail, (p.2).isInit = false) ∧
    ((((alisRun (encodeAlisEvent cfgStreamAlis) (streamerNew 0) tesDemo).filter
          (fun f => !frameIsInit f)).map alisFrameId
        = (List.range' 1
            ((alisRun (encodeAlisEvent cfgStreamAlis) (streamerNew 0)
                tesDemo).filter
              (fun f => !frameIsInit f)).length).map some
      ∧ ∀ f ∈ alisRun (encodeAlisEvent cfgStreamAlis) (streamerNew 0) tesDemo,
          frameIsInit f = true → alisFrameId f = some 0)
    ∧ (((alisRun convertToAlisBinary (streamerNew 0) tesDemo).filter
          (fun f => !frameIsInit f)).map alisFrameId
        = (List.range' 1
            ((alisRun convertToAlisBinary (streamerNew 0) tesDemo).filter
              (fun f => !frameIsInit f)).length).map some
      ∧ ∀ f ∈ alisRun convertToAlisBinary (streamerNew 0) tesDemo,
          frameIsInit f = true → alisFrameId f = some 0)) :=
  ⟨by decide, c6_alis_monotone_ids cfgStreamAlis 0 tesDemo (by decide)⟩

end Ht
